import Mathlib

/-!
Verification of the KanaBoxV2 billing core.

This file gives a shallow embedding, in Lean 4, of the billing calculation
core of the repository: the date-only calendar utilities
(`app/utils/date.ts`, whose text appears inside `CustomerTable.tsx` in the
source drop), the subscription status engine
(`app/models/subscriptionStatus.ts`), and the payment allocation and
monthly aggregation functions (`app/models/payment.server.ts`, provided as
`src/unnamed/part_002`).

Modelling conventions:
- A JavaScript `Date` holding a local midnight is modelled as a
  `CalendarDate` record of year / month / day integers.  The ECMAScript
  `Date` normalization used by `setDate`, `setMonth` and the
  `new Date(y, m, d)` constructor is spelled out explicitly where the
  source relies on it, with a comment at each spot.
- JavaScript numbers that the source keeps at a currency's native
  precision (whole VND, whole USD cents) are modelled as `Int` counts of
  minimal units (1 VND, or 1 cent).  On such values every `Math.round`
  and `Math.floor` the source performs is exact; the division the source
  performs on dollar amounts corresponds to integer division on cents.
- `Math.floor` on a quotient of integers with positive divisor is `Int`
  division `/` (Lean's `Int` `/` rounds toward negative infinity for
  positive divisors, like `Math.floor`).
-/

namespace KanaBox

/-! Calendar dates.

`app/utils/date.ts` stores dates as `YYYY-MM-DD` strings and converts
them to JS `Date` objects at local midnight to do arithmetic.  The value
content of such a `Date` is its (year, month, day) triple. -/

structure CalendarDate where
  year : Int
  month : Int
  day : Int
deriving DecidableEq, Repr

/-- Proleptic Gregorian leap year rule, as implemented by the ECMAScript
`Date` object that `date.ts` delegates all calendar arithmetic to. -/
def isLeapYear (y : Int) : Bool :=
  (y % 4 == 0 && y % 100 != 0) || y % 400 == 0

/-- Number of days in a month, per the Gregorian calendar used by the JS
`Date` object. -/
def daysInMonth (y m : Int) : Int :=
  if m = 2 then (if isLeapYear y then 29 else 28)
  else if m = 4 ∨ m = 6 ∨ m = 9 ∨ m = 11 then 30
  else 31

/-- A (year, month, day) triple denotes a real calendar day. -/
def Valid (d : CalendarDate) : Prop :=
  1 ≤ d.month ∧ d.month ≤ 12 ∧ 1 ≤ d.day ∧ d.day ≤ daysInMonth d.year d.month

instance (d : CalendarDate) : Decidable (Valid d) := by
  unfold Valid; infer_instance

/-- Day number of a calendar date on a linear day scale (the scale the JS
engine realizes as the `Date.UTC` millisecond timestamp divided by
86,400,000; the two differ only by the constant offset of the epoch, which
cancels in every difference the source takes).  Standard civil-calendar
formula with the year shifted to start in March, so that the leap day
falls at the end of the shifted year. -/
def toEpochDays (d : CalendarDate) : Int :=
  let ys : Int := if d.month ≤ 2 then d.year - 1 else d.year
  let ms : Int := if d.month ≤ 2 then d.month + 12 else d.month
  365 * ys + ys / 4 - ys / 100 + ys / 400 + (153 * (ms - 3) + 2) / 5 + d.day - 1

/-- Successor day of a valid calendar date. -/
def nextDate (d : CalendarDate) : CalendarDate :=
  if d.day < daysInMonth d.year d.month then ⟨d.year, d.month, d.day + 1⟩
  else if d.month < 12 then ⟨d.year, d.month + 1, 1⟩
  else ⟨d.year + 1, 1, 1⟩

/-- Predecessor day of a valid calendar date. -/
def prevDate (d : CalendarDate) : CalendarDate :=
  if 1 < d.day then ⟨d.year, d.month, d.day - 1⟩
  else if 1 < d.month then ⟨d.year, d.month - 1, daysInMonth d.year (d.month - 1)⟩
  else ⟨d.year - 1, 12, 31⟩

/-- Core of `addDaysDateOnly` (`date.ts`): `date.setDate(date.getDate() + days)`.
JS `setDate` shifts the timestamp by whole days and renormalizes; on the
triple view this is iterating the successor (or predecessor, for negative
counts) day function. -/
def addDaysDateOnly (d : CalendarDate) (n : Int) : CalendarDate :=
  if 0 ≤ n then nextDate^[n.toNat] d else prevDate^[(-n).toNat] d

/-- Core of `diffDaysDateOnly` (`date.ts`): both dates are converted with
`Date.UTC(y, m, d)` to a millisecond timestamp at UTC midnight, the
difference is divided by 86,400,000 and passed through `Math.round`.
Both timestamps are exact multiples of a day in milliseconds, so the
division is exact and the rounding is the identity: the result is the
difference of the day numbers. -/
def diffDaysDateOnly (a b : CalendarDate) : Int :=
  toEpochDays a - toEpochDays b

/-- Function `compareDateOnly` (`date.ts`): literally returns `diffDaysDateOnly a b`. -/
def compareDateOnly (a b : CalendarDate) : Int :=
  diffDaysDateOnly a b

/-- JS `date.setMonth(t)` where `t` is an arbitrary (possibly negative,
possibly ≥ 12) month index: the month index is renormalized into year and
month by floor division, keeping the day; a day beyond the end of that
month then overflows into the following month (for a day ≤ 31 the
overflow never reaches past the immediately following month). -/
def setMonthNorm (d : CalendarDate) (t : Int) : CalendarDate :=
  let y : Int := t / 12
  let m : Int := t % 12 + 1
  if d.day ≤ daysInMonth y m then ⟨y, m, d.day⟩
  else if m = 12 then ⟨y + 1, 1, d.day - daysInMonth y m⟩
  else ⟨y, m + 1, d.day - daysInMonth y m⟩

/-- JS `date.setDate(0)`: move to the last day of the previous month. -/
def setDateZero (d : CalendarDate) : CalendarDate :=
  if d.month = 1 then ⟨d.year - 1, 12, 31⟩
  else ⟨d.year, d.month - 1, daysInMonth d.year (d.month - 1)⟩

/-- Core of `addMonthsDateOnly` (`date.ts`):
`date.setMonth(date.getMonth() + months)`, and then, when the day-of-month
changed (i.e. the target month was too short and the date overflowed into
the following month), `date.setDate(0)` to land on the last day of the
target month. -/
def addMonthsDateOnly (d : CalendarDate) (n : Int) : CalendarDate :=
  let t : Int := 12 * d.year + (d.month - 1) + n
  let nd := setMonthNorm d t
  if nd.day ≠ d.day then setDateZero nd else nd

/-- Linear month index of a date (used to state that month buckets are
contiguous). -/
def ymIndex (d : CalendarDate) : Int :=
  12 * d.year + (d.month - 1)

/-! Strings: `parseDateOnly` and `formatDateOnly`.

`parseDateOnly` matches the string against the regular expression
`^(\d{4})-(\d{2})-(\d{2})$`, throws `Invalid date format` when it does
not match, builds `new Date(year, month - 1, day, 0, 0, 0, 0)` and throws
`Invalid date` when the getters of the built `Date` do not reproduce the
parsed triple.  The two thrown errors are modelled as the two
constructors of `DateError`. -/

inductive DateError
  | invalidFormat
  | invalidDate
deriving DecidableEq, Repr

/-- ASCII digit test, the character class `\d` of the source regex. -/
def isDigitChar (c : Char) : Bool :=
  48 ≤ c.toNat && c.toNat ≤ 57

/-- Numeric value of an ASCII digit. -/
def digitVal (c : Char) : Nat :=
  c.toNat - 48

/-- The regex match of `parseDateOnly`: exactly ten characters
`\d\d\d\d-\d\d-\d\d`, returning the three numbers the source obtains
with `parseInt(_, 10)`. -/
def matchYMD (s : String) : Option (Nat × Nat × Nat) :=
  match s.data with
  | [y1, y2, y3, y4, h1, m1, m2, h2, d1, d2] =>
    if isDigitChar y1 && isDigitChar y2 && isDigitChar y3 && isDigitChar y4 &&
        h1 == '-' && isDigitChar m1 && isDigitChar m2 && h2 == '-' &&
        isDigitChar d1 && isDigitChar d2 then
      some (1000 * digitVal y1 + 100 * digitVal y2 + 10 * digitVal y3 + digitVal y4,
            10 * digitVal m1 + digitVal m2,
            10 * digitVal d1 + digitVal d2)
    else none
  | _ => none

/-- Function `parseDateOnly` (`date.ts`).  After the regex match the source builds
`new Date(y, m - 1, d, 0, 0, 0, 0)` and accepts iff
`getFullYear() === y && getMonth() === m - 1 && getDate() === d`.
Two ECMAScript facts are spelled out here:
(1) the `Date(y, ...)` constructor maps a year argument `0 ≤ y ≤ 99` to
`1900 + y` (`MakeFullYear`), so the year comparison fails for such years;
(2) the constructor otherwise normalizes the triple, and the three getter
comparisons all succeed exactly when no normalization occurred, i.e. when
`1 ≤ m ≤ 12` and `1 ≤ d ≤ daysInMonth y m` (an out-of-range month changes
`getMonth`, an out-of-range day changes `getDate`). -/
def parseDateOnly (s : String) : Except DateError CalendarDate :=
  match matchYMD s with
  | none => .error .invalidFormat
  | some (y, m, d) =>
    let yAdj : Int := if y ≤ 99 then 1900 + (y : Int) else (y : Int)
    if yAdj = (y : Int) ∧ 1 ≤ (m : Int) ∧ (m : Int) ≤ 12 ∧ 1 ≤ (d : Int) ∧
        (d : Int) ≤ daysInMonth (y : Int) (m : Int) then
      .ok ⟨(y : Int), (m : Int), (d : Int)⟩
    else .error .invalidDate

/-- Padding `String(n).padStart(2, "0")` applied to the month and day numbers. -/
def pad2 (n : Int) : String :=
  let s := toString n
  if s.length < 2 then "0" ++ s else s

/-- Function `formatDateOnly` (`date.ts`): the year is interpolated with no
padding (`` `${year}` `` in the source), month and day are padded to two
digits. -/
def formatDateOnly (d : CalendarDate) : String :=
  toString d.year ++ "-" ++ pad2 d.month ++ "-" ++ pad2 d.day

/-- Function `getMonthBucket` (`date.ts`): `dateString.substring(0, 7)` of the
canonical string of the date. -/
def getMonthBucket (d : CalendarDate) : String :=
  (formatDateOnly d).take 7

/-- The string-level `addMonthsDateOnly` of the source: parse, add
months on the date value, format.  (The source throws on an unparsable
input; here the error propagates in `Except`.) -/
def addMonthsDateOnlyStr (s : String) (n : Int) : Except DateError String :=
  (parseDateOnly s).map (fun d => formatDateOnly (addMonthsDateOnly d n))

/-- Decimal digit list of a natural number, most significant first; the
reference expansion used to reason about `Nat.repr`. -/
def natDigits (n : Nat) : List Char :=
  if n < 10 then [Nat.digitChar n]
  else natDigits (n / 10) ++ [Nat.digitChar (n % 10)]
decreasing_by exact Nat.div_lt_self (by omega) (by omega)

/-! Status engine (`app/models/subscriptionStatus.ts`). -/

def DUE_SOON_DAYS : Int := 3
def GRACE_DAYS : Int := 7
def BASE_PRICE_VND : Int := 50000
def BASE_PRICE_USD : Int := 2
def USD_TO_VND_RATE : Int := 25800

inductive SubscriptionStatus
  | active
  | due
  | grace
  | expired
  | none
deriving DecidableEq, Repr

structure StatusInfo where
  status : SubscriptionStatus
  className : String
  label : String
  daysToEnd : Option Int
  daysPastEnd : Option Int
deriving DecidableEq, Repr

/-- Function `computeStatus` (`subscriptionStatus.ts`).  The source reads `today`
itself via `getTodayDateOnly()`; following §4.2 of the spec the current
day is captured by the caller and passed explicitly, which is the only
free variable of the computation.  A `null` end date (the source's
`!endDate` test) is `Option.none`. -/
def computeStatus (endDate : Option CalendarDate) (today : CalendarDate) : StatusInfo :=
  match endDate with
  | Option.none =>
    ⟨.none, "bg-gray-100 border-gray-400", "Chưa có thanh toán", Option.none, Option.none⟩
  | Option.some e =>
    let daysToEnd := diffDaysDateOnly e today
    let daysPastEnd := -daysToEnd
    if daysToEnd > DUE_SOON_DAYS then
      ⟨.active, "bg-status-active border-status-active-border", "Còn hạn",
        Option.some daysToEnd, Option.none⟩
    else if daysToEnd ≥ 0 ∧ daysToEnd ≤ DUE_SOON_DAYS then
      ⟨.due, "bg-status-due border-status-due-border", "Sắp đến hạn",
        Option.some daysToEnd, Option.none⟩
    else if daysPastEnd > 0 ∧ daysPastEnd ≤ GRACE_DAYS then
      ⟨.grace, "bg-status-grace border-status-grace-border", "Quá hạn (cao su)",
        Option.none, Option.some daysPastEnd⟩
    else
      ⟨.expired, "bg-status-expired border-status-expired-border", "Hết hạn",
        Option.none, Option.some daysPastEnd⟩

/-! Payments, allocation, aggregation (`payment.server.ts`).

Amounts are modelled as `Int` counts of the currency's minimal unit
(1 VND, or 1 USD cent).  On native-precision values this is exact:
- VND branch of the allocator: `Math.floor(amount / months)`,
  `amount - base * months`, `+1` — integer arithmetic verbatim.
- USD branch: `Math.floor((amount / months) * 100) / 100` dollars is
  `floor(cents / months)` cents; `Math.round((amount - totalBase) * 100) / 100`
  dollars is `cents - baseCents * months` cents;
  `Math.round(remainder / 0.01)` is that remainder in cents; the extra
  `0.01` is one cent.  The branches therefore coincide on cents, and the
  repeated round-to-cent steps of the source are the identity. -/

inductive Currency
  | VND
  | USD
deriving DecidableEq, Repr

structure Payment where
  paidDate : CalendarDate
  currency : Currency
  amount : Int
  months : Int
  endDate : CalendarDate
deriving DecidableEq, Repr

structure MonthlyAllocation where
  monthBucket : String
  amount : Int
  currency : Currency
deriving DecidableEq, Repr

/-- Function `allocatePaymentToMonths` (`payment.server.ts`): `months` iterations
(`for (let i = 0; i < months; i++)`, i.e. `max months 0` of them), the
`i`-th allocation landing in the bucket of `paidDate + i` calendar months
with the front-loaded remainder distribution.  The division is the
source's `Math.floor(amount / months)`, which on the positive amounts and
month counts of the data model agrees with `Int` division. -/
def allocatePaymentToMonths (p : Payment) : List MonthlyAllocation :=
  let baseAmount : Int := p.amount / p.months
  let totalBase : Int := baseAmount * p.months
  let remainder : Int := p.amount - totalBase
  let monthsWithExtra : Int := remainder
  (List.range p.months.toNat).map fun i : Nat =>
    let periodStart := addMonthsDateOnly p.paidDate (i : Int)
    ⟨getMonthBucket periodStart,
      baseAmount + (if (i : Int) < monthsWithExtra then 1 else 0),
      p.currency⟩

structure MonthlyTotal where
  vnd : Int
  usd : Int
  convertedVnd : Int
deriving DecidableEq, Repr

/-- Operation `totals.set(k, v)` on the JS `Map`: overwrite the entry of an
existing key in place, otherwise append a new entry (JS `Map` preserves
insertion order). -/
def setTotal : List (String × MonthlyTotal) → String → MonthlyTotal →
    List (String × MonthlyTotal)
  | [], k, v => [(k, v)]
  | (k', v') :: rest, k, v =>
    if k' = k then (k, v) :: rest else (k', v') :: setTotal rest k v

/-- Operation `totals.get(k)` on the JS `Map`. -/
def lookupTotal : List (String × MonthlyTotal) → String → Option MonthlyTotal
  | [], _ => Option.none
  | (k', v) :: rest, k => if k' = k then Option.some v else lookupTotal rest k

/-- One iteration of the payment loop of `computeMonthlyTotals`: look the
paid month's bucket up, skip the payment when absent (`if (!current)
continue`), otherwise add the full amount to the currency's running sum.
`current.VND += Math.round(payment.amount)` and the running
`Math.round((current.USD + payment.amount) * 100) / 100` are the plain
additions on minimal units. -/
def applyPayment (acc : List (String × MonthlyTotal)) (p : Payment) :
    List (String × MonthlyTotal) :=
  match lookupTotal acc (getMonthBucket p.paidDate) with
  | Option.none => acc
  | Option.some t =>
    let t' := match p.currency with
      | Currency.VND => { t with vnd := t.vnd + p.amount }
      | Currency.USD => { t with usd := t.usd + p.amount }
    setTotal acc (getMonthBucket p.paidDate) t'

/-- Function `computeMonthlyTotals` (`payment.server.ts`): initialize every
supplied bucket with zeros, fold the payments, then set
`convertedVnd = Math.round(vnd + usd * USD_TO_VND_RATE)` on each row.
With `usd` carried in cents this is `vnd + 258 * usdCents`, exactly
(`cents / 100 * 25800 = cents * 258`), so the `Math.round` is the
identity. -/
def computeMonthlyTotals (payments : List Payment) (monthBuckets : List String) :
    List (String × MonthlyTotal) :=
  let init := monthBuckets.foldl (fun acc b => setTotal acc b ⟨0, 0, 0⟩) []
  let mid := payments.foldl applyPayment init
  mid.map (fun kv => (kv.1, { kv.2 with convertedVnd := kv.2.vnd + 258 * kv.2.usd }))

/-- Value of one loop iteration of `computeMonthlyTotals` restricted to a
single bucket key: the update the iteration performs on that bucket's
entry (identity when the payment belongs to another bucket). -/
def updOne (b : String) (t : MonthlyTotal) (p : Payment) : MonthlyTotal :=
  if getMonthBucket p.paidDate = b then
    match p.currency with
    | Currency.VND => { t with vnd := t.vnd + p.amount }
    | Currency.USD => { t with usd := t.usd + p.amount }
  else t

/-- Sum of the full amounts of the payments of currency `c` paid in
bucket `b`. -/
def bucketSum (payments : List Payment) (b : String) (c : Currency) : Int :=
  ((payments.filter (fun p => getMonthBucket p.paidDate = b ∧ p.currency = c)).map
    Payment.amount).sum

end KanaBox

namespace KanaBox

theorem toEpochDays_nextDate (d : CalendarDate) (h : Valid d) :
    toEpochDays (nextDate d) = toEpochDays d + 1 ∧ Valid (nextDate d) := by
  obtain ⟨y, m, dy⟩ := d
  simp only [Valid] at h
  obtain ⟨hm1, hm2, hd1, hd2⟩ := h
  unfold nextDate
  try dsimp only
  split_ifs with h1 h2
  · constructor
    · simp only [toEpochDays]
      try dsimp only
      split_ifs <;> omega
    · simp only [Valid]
      try dsimp only
      omega
  · have hm2' : m ≤ 11 := by omega
    interval_cases m <;>
    · norm_num [toEpochDays, Valid, daysInMonth, isLeapYear, Bool.or_eq_true,
        Bool.and_eq_true, beq_iff_eq, bne_iff_ne] at hd2 h1 ⊢
      try split_ifs at hd2 h1 ⊢
      all_goals omega
  · have hm : m = 12 := by omega
    subst hm
    norm_num [toEpochDays, Valid, daysInMonth, isLeapYear] at hd2 h1 ⊢
    omega

theorem toEpochDays_prevDate (d : CalendarDate) (h : Valid d) :
    toEpochDays (prevDate d) = toEpochDays d - 1 ∧ Valid (prevDate d) := by
  obtain ⟨y, m, dy⟩ := d
  simp only [Valid] at h
  obtain ⟨hm1, hm2, hd1, hd2⟩ := h
  unfold prevDate
  try dsimp only
  split_ifs with h1 h2
  · constructor
    · simp only [toEpochDays]
      try dsimp only
      split_ifs <;> omega
    · simp only [Valid]
      try dsimp only
      omega
  · have hm1' : 2 ≤ m := by omega
    interval_cases m <;>
    · norm_num [toEpochDays, Valid, daysInMonth, isLeapYear, Bool.or_eq_true,
        Bool.and_eq_true, beq_iff_eq, bne_iff_ne] at hd2 h1 ⊢
      try split_ifs at hd2 h1 ⊢
      all_goals omega
  · have hm : m = 1 := by omega
    subst hm
    norm_num [toEpochDays, Valid, daysInMonth, isLeapYear] at hd2 h1 ⊢
    omega

theorem toEpochDays_nextDate_iter (k : Nat) (d : CalendarDate) (h : Valid d) :
    toEpochDays (nextDate^[k] d) = toEpochDays d + k ∧ Valid (nextDate^[k] d) := by
  induction k with
  | zero => simpa using h
  | succ n ih =>
    rw [Function.iterate_succ_apply']
    obtain ⟨he, hv⟩ := ih
    obtain ⟨hs, hv'⟩ := toEpochDays_nextDate _ hv
    refine ⟨?_, hv'⟩
    rw [hs, he]
    push_cast
    ring

theorem toEpochDays_prevDate_iter (k : Nat) (d : CalendarDate) (h : Valid d) :
    toEpochDays (prevDate^[k] d) = toEpochDays d - k ∧ Valid (prevDate^[k] d) := by
  induction k with
  | zero => simpa using h
  | succ n ih =>
    rw [Function.iterate_succ_apply']
    obtain ⟨he, hv⟩ := ih
    obtain ⟨hs, hv'⟩ := toEpochDays_prevDate _ hv
    refine ⟨?_, hv'⟩
    rw [hs, he]
    push_cast
    ring

/-- Claim C7. -/
theorem diffDays_addDays_roundtrip (d : CalendarDate) (n : Int) (h : Valid d) :
    diffDaysDateOnly (addDaysDateOnly d n) d = n := by
  unfold addDaysDateOnly diffDaysDateOnly
  split_ifs with hn
  · rw [(toEpochDays_nextDate_iter n.toNat d h).1]
    omega
  · rw [(toEpochDays_prevDate_iter (-n).toNat d h).1]
    omega

end KanaBox

namespace KanaBox

theorem daysInMonth_bounds (y m : Int) : 28 ≤ daysInMonth y m ∧ daysInMonth y m ≤ 31 := by
  unfold daysInMonth
  split_ifs <;> omega

theorem addMonthsDateOnly_eq_clamp (d : CalendarDate) (n : Int) (h : Valid d) :
    addMonthsDateOnly d n =
      (if d.day ≤ daysInMonth ((12 * d.year + (d.month - 1) + n) / 12)
          ((12 * d.year + (d.month - 1) + n) % 12 + 1) then
        (⟨(12 * d.year + (d.month - 1) + n) / 12,
          (12 * d.year + (d.month - 1) + n) % 12 + 1, d.day⟩ : CalendarDate)
      else
        ⟨(12 * d.year + (d.month - 1) + n) / 12,
          (12 * d.year + (d.month - 1) + n) % 12 + 1,
          daysInMonth ((12 * d.year + (d.month - 1) + n) / 12)
            ((12 * d.year + (d.month - 1) + n) % 12 + 1)⟩) := by
  obtain ⟨y, m, dy⟩ := d
  simp only [Valid] at h
  obtain ⟨hm1, hm2, hd1, hd2⟩ := h
  unfold addMonthsDateOnly setMonthNorm
  try dsimp only
  set t : Int := 12 * y + (m - 1) + n with ht
  set ty : Int := t / 12 with hty
  set tm : Int := t % 12 + 1 with htm
  have htm1 : 1 ≤ tm := by omega
  have htm2 : tm ≤ 12 := by omega
  have hdim := daysInMonth_bounds ty tm
  by_cases hcl : dy ≤ daysInMonth ty tm
  · rw [if_pos hcl, if_pos hcl]
    try dsimp only
    rw [if_neg (by omega : ¬dy ≠ dy)]
  · rw [if_neg hcl, if_neg hcl]
    by_cases h12 : tm = 12
    · rw [if_pos h12]
      try dsimp only
      rw [if_pos (show dy - daysInMonth ty tm ≠ dy by omega)]
      unfold setDateZero
      try dsimp only
      rw [if_pos rfl]
      simp only [CalendarDate.mk.injEq]
      refine ⟨by omega, by omega, ?_⟩
      rw [h12]
      norm_num [daysInMonth]
    · rw [if_neg h12]
      try dsimp only
      rw [if_pos (show dy - daysInMonth ty tm ≠ dy by omega)]
      unfold setDateZero
      try dsimp only
      rw [if_neg (by omega : ¬tm + 1 = 1)]
      have harg : tm + 1 - 1 = tm := by ring
      rw [harg]

theorem ymIndex_addMonths (d : CalendarDate) (n : Int) (h : Valid d) :
    ymIndex (addMonthsDateOnly d n) = ymIndex d + n := by
  rw [addMonthsDateOnly_eq_clamp d n h]
  unfold ymIndex
  split_ifs <;> (try dsimp only) <;> omega

theorem addMonths_zero (d : CalendarDate) (h : Valid d) :
    addMonthsDateOnly d 0 = d := by
  obtain ⟨y, m, dy⟩ := d
  have h2 := h
  simp only [Valid] at h2
  rw [addMonthsDateOnly_eq_clamp _ _ h]
  try dsimp only
  have e1 : (12 * y + (m - 1) + 0) / 12 = y := by omega
  have e2 : (12 * y + (m - 1) + 0) % 12 + 1 = m := by omega
  rw [e1, e2, if_pos h2.2.2.2]

end KanaBox

namespace KanaBox

/-- Claim C1: `computeStatus` classifies exactly by the constants
`DUE_SOON_DAYS = 3` and `GRACE_DAYS = 7`: a missing end date gives
`none`; with `k = diffDays(endDate, today)`, `k > 3` gives `active`,
`0 ≤ k ≤ 3` gives `due`, `1 ≤ -k ≤ 7` gives `grace` and `-k > 7` gives
`expired`; the boundary cases (`k = 3` due, `k = -1` grace, `k = -8`
expired, checked at `today = 2026-01-10`) are exact. -/
theorem computeStatus_classification (e today : CalendarDate) :
    (computeStatus Option.none today).status = SubscriptionStatus.none ∧
    ((computeStatus (Option.some e) today).status = SubscriptionStatus.active ↔
      DUE_SOON_DAYS < diffDaysDateOnly e today) ∧
    ((computeStatus (Option.some e) today).status = SubscriptionStatus.due ↔
      0 ≤ diffDaysDateOnly e today ∧ diffDaysDateOnly e today ≤ DUE_SOON_DAYS) ∧
    ((computeStatus (Option.some e) today).status = SubscriptionStatus.grace ↔
      1 ≤ -diffDaysDateOnly e today ∧ -diffDaysDateOnly e today ≤ GRACE_DAYS) ∧
    ((computeStatus (Option.some e) today).status = SubscriptionStatus.expired ↔
      GRACE_DAYS < -diffDaysDateOnly e today) ∧
    (computeStatus (Option.some ⟨2026, 1, 13⟩) ⟨2026, 1, 10⟩).status =
      SubscriptionStatus.due ∧
    (computeStatus (Option.some ⟨2026, 1, 9⟩) ⟨2026, 1, 10⟩).status =
      SubscriptionStatus.grace ∧
    (computeStatus (Option.some ⟨2026, 1, 2⟩) ⟨2026, 1, 10⟩).status =
      SubscriptionStatus.expired := by
  refine ⟨rfl, ?_, ?_, ?_, ?_, by rfl, by rfl, by rfl⟩ <;>
  · unfold computeStatus DUE_SOON_DAYS GRACE_DAYS
    try dsimp only
    split_ifs <;> simp <;> omega

theorem sum_base_ite (n : Nat) (base r : Int) :
    ((List.range n).map (fun i : Nat => base + if (i : Int) < r then 1 else 0)).sum =
      n * base + min (max r 0) n := by
  induction n with
  | zero => simp
  | succ k ih =>
    rw [List.range_succ, List.map_append, List.sum_append, ih]
    simp only [List.map_cons, List.map_nil, List.sum_cons, List.sum_nil]
    push_cast
    have hx : ((k : Int) + 1) * base = (k : Int) * base + base := by ring
    split_ifs <;> omega

/-- Claim C2: for positive `months = N` and positive amount (in minimal
units), the allocator returns exactly `N` allocations; their sum is
exactly the payment amount; with `base = floor(amount / N)` and
`remainder = amount - base * N` (which lies in `[0, N)`), the first
`remainder` allocations are `base + 1` minimal unit and the rest are
`base`. -/
theorem allocate_amounts_exact (p : Payment)
    (hm : 0 < p.months) (ha : 0 < p.amount) :
    (allocatePaymentToMonths p).length = p.months.toNat ∧
    ((allocatePaymentToMonths p).map MonthlyAllocation.amount).sum = p.amount ∧
    0 ≤ p.amount - p.amount / p.months * p.months ∧
    p.amount - p.amount / p.months * p.months < p.months ∧
    ∀ i : Nat, (hi : i < (allocatePaymentToMonths p).length) →
      ((allocatePaymentToMonths p).get ⟨i, hi⟩).amount =
        p.amount / p.months +
          (if (i : Int) < p.amount - p.amount / p.months * p.months then 1 else 0) := by
  have hEq : p.amount - p.amount / p.months * p.months = p.amount % p.months := by
    rw [Int.emod_def]
    ring
  have h0 : 0 ≤ p.amount % p.months := Int.emod_nonneg _ (by omega)
  have h1 : p.amount % p.months < p.months := Int.emod_lt_of_pos _ hm
  have hr0 : 0 ≤ p.amount - p.amount / p.months * p.months := by omega
  have hr1 : p.amount - p.amount / p.months * p.months < p.months := by omega
  refine ⟨by simp [allocatePaymentToMonths], ?_, hr0, hr1, ?_⟩
  · unfold allocatePaymentToMonths
    try dsimp only
    rw [List.map_map]
    have hc : (MonthlyAllocation.amount ∘ fun i : Nat =>
        (⟨getMonthBucket (addMonthsDateOnly p.paidDate (i : Int)),
          p.amount / p.months +
            (if (i : Int) < p.amount - p.amount / p.months * p.months then 1 else 0),
          p.currency⟩ : MonthlyAllocation)) =
        fun i : Nat => p.amount / p.months +
          (if (i : Int) < p.amount - p.amount / p.months * p.months then 1 else 0) := rfl
    rw [hc, sum_base_ite]
    have hcast : (p.months.toNat : Int) = p.months := by omega
    have hmin : min (max (p.amount - p.amount / p.months * p.months) 0) p.months =
        p.amount - p.amount / p.months * p.months := by omega
    rw [hcast, hmin]
    ring
  · intro i hi
    simp only [allocatePaymentToMonths, List.get_eq_getElem, List.getElem_map,
      List.getElem_range]

/-- Claim C3: the `i`-th allocation's bucket is
`monthBucket(addMonths(paidDate, i))`, and the dates `addMonths(paidDate, i)`
have month index `ymIndex(paidDate) + i`, so the buckets are consecutive
calendar months starting at the bucket of `paidDate`
(`addMonths(paidDate, 0) = paidDate`), clamping notwithstanding. -/
theorem allocate_buckets_contiguous (p : Payment)
    (hv : Valid p.paidDate) (hm : 0 < p.months) :
    (allocatePaymentToMonths p).length = p.months.toNat ∧
    addMonthsDateOnly p.paidDate 0 = p.paidDate ∧
    ∀ i : Nat, (hi : i < (allocatePaymentToMonths p).length) →
      ((allocatePaymentToMonths p).get ⟨i, hi⟩).monthBucket =
        getMonthBucket (addMonthsDateOnly p.paidDate (i : Int)) ∧
      ymIndex (addMonthsDateOnly p.paidDate (i : Int)) = ymIndex p.paidDate + i := by
  refine ⟨by simp [allocatePaymentToMonths], addMonths_zero _ hv, ?_⟩
  intro i hi
  refine ⟨?_, ymIndex_addMonths _ _ hv⟩
  simp only [allocatePaymentToMonths, List.get_eq_getElem, List.getElem_map,
    List.getElem_range]

end KanaBox

namespace KanaBox

/-- Claim C5 counterexample: the string "0099-01-01" matches the
`\d{4}-\d{2}-\d{2}` pattern and its triple denotes a real calendar day,
yet `parseDateOnly` rejects it with `InvalidDate`: the ECMAScript `Date`
constructor maps year arguments 0–99 to 1900–1999, so the round-trip
year check fails. -/
theorem parse_real_day_rejected :
    matchYMD "0099-01-01" = Option.some (99, 1, 1) ∧
    Valid ⟨99, 1, 1⟩ ∧
    parseDateOnly "0099-01-01" = Except.error DateError.invalidDate :=
  ⟨by rfl, by decide, by rfl⟩

/-- Claim C5 (amended): `parseDateOnly` fails with `InvalidFormat`
exactly when the string does not match the ten-character
`\d{4}-\d{2}-\d{2}` shape; when the shape matches with triple
`(y, m, d)`, it succeeds exactly when the triple denotes a real calendar
day and `y ≥ 100`, and otherwise fails with `InvalidDate` (this includes
months outside 01–12, day overflow, and real calendar days of the years
0000–0099). -/
theorem parse_characterization (s : String) :
    (parseDateOnly s = Except.error DateError.invalidFormat ↔ matchYMD s = Option.none) ∧
    (∀ y m d : Nat, matchYMD s = Option.some (y, m, d) →
      (Valid ⟨(y : Int), (m : Int), (d : Int)⟩ ∧ 100 ≤ y →
        parseDateOnly s = Except.ok ⟨(y : Int), (m : Int), (d : Int)⟩) ∧
      (¬(Valid ⟨(y : Int), (m : Int), (d : Int)⟩ ∧ 100 ≤ y) →
        parseDateOnly s = Except.error DateError.invalidDate)) := by
  constructor
  · rcases hE : matchYMD s with _ | ⟨y, m, d⟩
    · simp [parseDateOnly, hE]
    · simp only [parseDateOnly, hE]
      split_ifs <;> simp
  · intro y m d hE
    have hiff : ((if y ≤ 99 then 1900 + (y : Int) else (y : Int)) = (y : Int) ∧
        1 ≤ (m : Int) ∧ (m : Int) ≤ 12 ∧ 1 ≤ (d : Int) ∧
        (d : Int) ≤ daysInMonth (y : Int) (m : Int)) ↔
        (Valid ⟨(y : Int), (m : Int), (d : Int)⟩ ∧ 100 ≤ y) := by
      unfold Valid
      try dsimp only
      split_ifs with h99
      · constructor
        · rintro ⟨hya, -⟩
          exfalso
          omega
        · rintro ⟨-, hy⟩
          exfalso
          omega
      · constructor
        · rintro ⟨-, h2, h3, h4, h5⟩
          exact ⟨⟨h2, h3, h4, h5⟩, by omega⟩
        · rintro ⟨⟨h2, h3, h4, h5⟩, -⟩
          exact ⟨rfl, h2, h3, h4, h5⟩
    constructor
    · intro hok
      simp only [parseDateOnly, hE]
      rw [if_pos (hiff.mpr hok)]
    · intro hbad
      simp only [parseDateOnly, hE]
      rw [if_neg (fun hc => hbad (hiff.mp hc))]

/-- Claim C8 counterexample: at `months = 0` the allocator returns the
ordinary value `[]` — a silently returned result.  Its return type has no
failure channel and the source performs no month-count validation, so no
`InvalidMonths` failure is ever reported. -/
theorem allocate_zero_months_silent :
    allocatePaymentToMonths ⟨⟨2026, 1, 10⟩, Currency.VND, 100000, 0, ⟨2026, 1, 10⟩⟩ =
      ([] : List MonthlyAllocation) := by rfl

/-- Claim C8 (amended): for a non-positive month count
`allocatePaymentToMonths` performs no validation and silently returns the
empty allocation list (the `for` loop body never runs); it does not
report an `InvalidMonths` failure. -/
theorem allocate_nonpositive_months_empty (p : Payment) (h : p.months ≤ 0) :
    allocatePaymentToMonths p = [] := by
  unfold allocatePaymentToMonths
  try dsimp only
  have h0 : p.months.toNat = 0 := by omega
  rw [h0]
  rfl

theorem allocate_nonpositive_months_empty_witness :
    (⟨⟨2026, 1, 10⟩, Currency.VND, 100000, -2, ⟨2026, 1, 10⟩⟩ : Payment).months ≤ 0 ∧
    allocatePaymentToMonths ⟨⟨2026, 1, 10⟩, Currency.VND, 100000, -2, ⟨2026, 1, 10⟩⟩ = [] :=
  ⟨by decide, allocate_nonpositive_months_empty _ (by decide)⟩

/-- Claim C9 counterexample: `compareDateOnly("2026-01-10", "2026-01-01")`
returns 9, which is none of -1, 0, 1: the function forwards the full day
difference rather than a clamped sign value. -/
theorem compare_not_clamped :
    compareDateOnly ⟨2026, 1, 10⟩ ⟨2026, 1, 1⟩ = 9 ∧
    ¬(compareDateOnly ⟨2026, 1, 10⟩ ⟨2026, 1, 1⟩ = -1 ∨
      compareDateOnly ⟨2026, 1, 10⟩ ⟨2026, 1, 1⟩ = 0 ∨
      compareDateOnly ⟨2026, 1, 10⟩ ⟨2026, 1, 1⟩ = 1) :=
  ⟨by rfl, by decide⟩

/-- Claim C9 (amended): `compareDateOnly` returns the full signed day
difference `diffDays(a, b)` — negative when `a` is before `b`, zero when
they are the same day, positive when `a` is after `b` — but the value is
not restricted to {-1, 0, 1}. -/
theorem compare_agrees_with_diffDays (a b : CalendarDate) :
    compareDateOnly a b = diffDaysDateOnly a b ∧
    (compareDateOnly a b < 0 ↔ toEpochDays a < toEpochDays b) ∧
    (compareDateOnly a b = 0 ↔ toEpochDays a = toEpochDays b) ∧
    (0 < compareDateOnly a b ↔ toEpochDays b < toEpochDays a) := by
  unfold compareDateOnly diffDaysDateOnly
  refine ⟨rfl, by omega, by omega, by omega⟩

end KanaBox

namespace KanaBox

theorem natDigits_small (n : Nat) (h : n < 10) : natDigits n = [Nat.digitChar n] := by
  unfold natDigits
  rw [if_pos h]

theorem natDigits_step (n : Nat) (h : 10 ≤ n) :
    natDigits n = natDigits (n / 10) ++ [Nat.digitChar (n % 10)] := by
  conv_lhs => rw [natDigits]
  rw [if_neg (by omega)]

theorem toDigitsCore_eq (fuel : Nat) : ∀ (n : Nat) (ds : List Char), n < fuel →
    Nat.toDigitsCore 10 fuel n ds = natDigits n ++ ds := by
  induction fuel with
  | zero =>
    intro n ds h
    omega
  | succ f ih =>
    intro n ds h
    unfold Nat.toDigitsCore
    try dsimp only
    by_cases h10 : n / 10 = 0
    · rw [if_pos h10, natDigits_small n (by omega)]
      have hn : n % 10 = n := by omega
      rw [hn]
      rfl
    · rw [if_neg h10, ih (n / 10) _ (by omega), natDigits_step n (by omega)]
      simp

theorem repr_data (n : Nat) : (Nat.repr n).data = natDigits n := by
  unfold Nat.repr Nat.toDigits
  rw [toDigitsCore_eq (n + 1) n [] (by omega)]
  simp [List.asString]

theorem digitVal_le (c : Char) (h : isDigitChar c = true) : digitVal c ≤ 9 := by
  simp only [isDigitChar, Bool.and_eq_true, decide_eq_true_eq] at h
  unfold digitVal
  omega

theorem digitChar_digitVal (c : Char) (h : isDigitChar c = true) :
    Nat.digitChar (digitVal c) = c := by
  simp only [isDigitChar, Bool.and_eq_true, decide_eq_true_eq] at h
  obtain ⟨h1, h2⟩ := h
  have hc : Char.ofNat c.toNat = c := Char.ofNat_toNat c
  unfold digitVal
  interval_cases h : c.toNat <;> simp_all <;> rw [← hc] <;> decide

theorem natDigits_four (a b c e : Nat) (ha1 : 1 ≤ a) (ha : a ≤ 9) (hb : b ≤ 9)
    (hc : c ≤ 9) (he : e ≤ 9) :
    natDigits (1000 * a + 100 * b + 10 * c + e) =
      [Nat.digitChar a, Nat.digitChar b, Nat.digitChar c, Nat.digitChar e] := by
  have e1 : (1000 * a + 100 * b + 10 * c + e) / 10 = 100 * a + 10 * b + c := by omega
  have e2 : (1000 * a + 100 * b + 10 * c + e) % 10 = e := by omega
  rw [natDigits_step _ (by omega), e1, e2]
  have e3 : (100 * a + 10 * b + c) / 10 = 10 * a + b := by omega
  have e4 : (100 * a + 10 * b + c) % 10 = c := by omega
  rw [natDigits_step _ (by omega), e3, e4]
  have e5 : (10 * a + b) / 10 = a := by omega
  have e6 : (10 * a + b) % 10 = b := by omega
  rw [natDigits_step _ (by omega), e5, e6, natDigits_small a (by omega)]
  simp

theorem pad2_data (n : Nat) (h : n ≤ 99) :
    (pad2 ((n : Nat) : Int)).data = [Nat.digitChar (n / 10), Nat.digitChar (n % 10)] := by
  unfold pad2
  try dsimp only
  have hts : toString ((n : Nat) : Int) = Nat.repr n := rfl
  rw [hts]
  have hlen : (Nat.repr n).length = (natDigits n).length :=
    congrArg List.length (repr_data n)
  by_cases h10 : n < 10
  · have hone : natDigits n = [Nat.digitChar n] := natDigits_small n h10
    rw [if_pos (by rw [hlen, hone]; simp)]
    rw [String.data_append, repr_data, hone]
    have g1 : n / 10 = 0 := by omega
    have g2 : n % 10 = n := by omega
    rw [g1, g2]
    rfl
  · have htwo : natDigits n = [Nat.digitChar (n / 10), Nat.digitChar (n % 10)] := by
      have e5 : n / 10 < 10 := by omega
      rw [natDigits_step _ (by omega), natDigits_small _ e5]
      simp
    rw [if_neg (by rw [hlen, htwo]; simp)]
    rw [repr_data, htwo]

theorem matchYMD_inv (s : String) (y m d : Nat)
    (h : matchYMD s = Option.some (y, m, d)) :
    ∃ c1 c2 c3 c4 c5 c6 c7 c8 : Char,
      s.data = [c1, c2, c3, c4, '-', c5, c6, '-', c7, c8] ∧
      isDigitChar c1 = true ∧ isDigitChar c2 = true ∧ isDigitChar c3 = true ∧
      isDigitChar c4 = true ∧ isDigitChar c5 = true ∧ isDigitChar c6 = true ∧
      isDigitChar c7 = true ∧ isDigitChar c8 = true ∧
      y = 1000 * digitVal c1 + 100 * digitVal c2 + 10 * digitVal c3 + digitVal c4 ∧
      m = 10 * digitVal c5 + digitVal c6 ∧
      d = 10 * digitVal c7 + digitVal c8 := by
  unfold matchYMD at h
  split at h
  case _ c1 c2 c3 c4 h1 c5 c6 h2 c7 c8 heq =>
    split_ifs at h with hcond
    · simp only [Bool.and_eq_true, beq_iff_eq] at hcond
      obtain ⟨⟨⟨⟨⟨⟨⟨⟨⟨q1, q2⟩, q3⟩, q4⟩, q5⟩, q6⟩, q7⟩, q8⟩, q9⟩, q10⟩ := hcond
      injection h with h
      obtain ⟨hy, hm, hd⟩ : y = _ ∧ m = _ ∧ d = _ := by
        have := h
        simp only [Prod.mk.injEq] at this
        exact ⟨this.1.symm, this.2.1.symm, this.2.2.symm⟩
      subst q5
      subst q8
      exact ⟨c1, c2, c3, c4, c5, c6, c7, c8, heq, q1, q2, q3, q4, q6, q7, q9, q10,
        hy, hm, hd⟩
  case _ =>
    cases h

end KanaBox

namespace KanaBox

/-- Claim C6 counterexample: "0150-01-01" is accepted by `parseDateOnly`
(year 150 passes the JS round-trip check), but formatting the parsed date
yields "150-01-01" — `formatDateOnly` does not zero-pad the year — so
`format(parse(s)) ≠ s`. -/
theorem format_parse_not_inverse :
    parseDateOnly "0150-01-01" = Except.ok ⟨150, 1, 1⟩ ∧
    formatDateOnly ⟨150, 1, 1⟩ = "150-01-01" ∧
    formatDateOnly ⟨150, 1, 1⟩ ≠ "0150-01-01" :=
  ⟨by rfl, by rfl, by decide⟩

/-- Claim C6 (amended): `format(parse(s)) = s` holds for every accepted
string whose year is at least 1000, i.e. every string with a canonical
four-digit year; the only accepted strings where it fails are years
0100–0999, whose years `formatDateOnly` prints without the leading
zero. -/
theorem format_parse_roundtrip (s : String) (dte : CalendarDate)
    (hok : parseDateOnly s = Except.ok dte) (hy : 1000 ≤ dte.year) :
    formatDateOnly dte = s := by
  rcases hE : matchYMD s with _ | ⟨y, m, d⟩
  · exfalso
    simp [parseDateOnly, hE] at hok
  · simp only [parseDateOnly, hE] at hok
    by_cases hc : (if y ≤ 99 then 1900 + (y : Int) else (y : Int)) = (y : Int) ∧
        1 ≤ (m : Int) ∧ (m : Int) ≤ 12 ∧ 1 ≤ (d : Int) ∧
        (d : Int) ≤ daysInMonth (y : Int) (m : Int)
    · rw [if_pos hc] at hok
      obtain ⟨c1, c2, c3, c4, c5, c6, c7, c8, hsd, g1, g2, g3, g4, g5, g6, g7, g8,
        hyv, hmv, hdv⟩ := matchYMD_inv s y m d hE
      injection hok with hok
      subst hok
      try dsimp only at hy
      have hy1000 : 1000 ≤ y := by omega
      have hm99 : m ≤ 99 := by
        have := digitVal_le c5 g5
        have := digitVal_le c6 g6
        omega
      have hd99 : d ≤ 99 := by
        have := digitVal_le c7 g7
        have := digitVal_le c8 g8
        omega
      apply String.ext
      unfold formatDateOnly
      try dsimp only
      simp only [String.data_append]
      have hyd : (toString ((y : Nat) : Int)).data = natDigits y := repr_data y
      rw [hyd, hsd]
      have hv1 : 1 ≤ digitVal c1 := by
        have := digitVal_le c2 g2
        have := digitVal_le c3 g3
        have := digitVal_le c4 g4
        omega
      rw [hyv]
      rw [natDigits_four _ _ _ _ hv1 (digitVal_le c1 g1) (digitVal_le c2 g2)
        (digitVal_le c3 g3) (digitVal_le c4 g4)]
      rw [pad2_data m hm99, pad2_data d hd99]
      have em1 : m / 10 = digitVal c5 := by
        have := digitVal_le c6 g6
        omega
      have em2 : m % 10 = digitVal c6 := by
        have := digitVal_le c6 g6
        omega
      have ed1 : d / 10 = digitVal c7 := by
        have := digitVal_le c8 g8
        omega
      have ed2 : d % 10 = digitVal c8 := by
        have := digitVal_le c8 g8
        omega
      rw [em1, em2, ed1, ed2]
      rw [digitChar_digitVal c1 g1, digitChar_digitVal c2 g2, digitChar_digitVal c3 g3,
        digitChar_digitVal c4 g4, digitChar_digitVal c5 g5, digitChar_digitVal c6 g6,
        digitChar_digitVal c7 g7, digitChar_digitVal c8 g8]
      rfl
    · rw [if_neg hc] at hok
      exact absurd hok (by simp)

theorem format_parse_roundtrip_witness :
    parseDateOnly "2026-02-05" = Except.ok ⟨2026, 2, 5⟩ ∧
    (1000 : Int) ≤ (⟨2026, 2, 5⟩ : CalendarDate).year ∧
    formatDateOnly ⟨2026, 2, 5⟩ = "2026-02-05" :=
  ⟨by rfl, by decide, format_parse_roundtrip "2026-02-05" ⟨2026, 2, 5⟩ (by rfl) (by decide)⟩

end KanaBox

namespace KanaBox

theorem lookup_setTotal (acc : List (String × MonthlyTotal)) (k q : String) (v : MonthlyTotal) :
    lookupTotal (setTotal acc k v) q = if k = q then Option.some v else lookupTotal acc q := by
  induction acc with
  | nil =>
    unfold setTotal lookupTotal
    rfl
  | cons hd rest ih =>
    obtain ⟨ek, ev⟩ := hd
    unfold setTotal
    by_cases hek : ek = k
    · subst hek
      rw [if_pos rfl]
      unfold lookupTotal
      by_cases hkq : ek = q <;> simp [hkq]
    · rw [if_neg hek]
      unfold lookupTotal
      by_cases heq : ek = q <;> by_cases hkq : k = q <;> simp_all [ih]

theorem lookup_initTotals (buckets : List String) :
    ∀ (acc : List (String × MonthlyTotal)) (q : String),
      lookupTotal (buckets.foldl (fun a b => setTotal a b ⟨0, 0, 0⟩) acc) q =
        if q ∈ buckets then Option.some ⟨0, 0, 0⟩ else lookupTotal acc q := by
  induction buckets with
  | nil =>
    intro acc q
    simp
  | cons b rest ih =>
    intro acc q
    rw [List.foldl_cons, ih, lookup_setTotal]
    by_cases h1 : q ∈ rest <;> by_cases h2 : b = q <;>
      simp_all [List.mem_cons, eq_comm]

theorem lookup_applyPayment (acc : List (String × MonthlyTotal)) (p : Payment) (q : String) :
    lookupTotal (applyPayment acc p) q =
      Option.map (fun t => updOne q t p) (lookupTotal acc q) := by
  unfold applyPayment
  by_cases hb : getMonthBucket p.paidDate = q
  · rw [hb]
    cases hl : lookupTotal acc q with
    | none =>
      try dsimp only
      rw [hl]
      rfl
    | some t =>
      try dsimp only
      rw [lookup_setTotal, if_pos rfl]
      simp [updOne, hb]
  · cases hl : lookupTotal acc (getMonthBucket p.paidDate) with
    | none =>
      try dsimp only
      cases hq : lookupTotal acc q with
      | none => rfl
      | some t2 => simp [updOne, hb]
    | some t =>
      try dsimp only
      rw [lookup_setTotal, if_neg hb]
      cases hq : lookupTotal acc q with
      | none => rfl
      | some t2 => simp [updOne, hb]

theorem lookup_foldPayments (ps : List Payment) :
    ∀ (acc : List (String × MonthlyTotal)) (q : String),
      lookupTotal (ps.foldl applyPayment acc) q =
        Option.map (fun t => ps.foldl (updOne q) t) (lookupTotal acc q) := by
  induction ps with
  | nil =>
    intro acc q
    simp
  | cons p rest ih =>
    intro acc q
    rw [List.foldl_cons, ih, lookup_applyPayment]
    cases hx : lookupTotal acc q <;> simp [List.foldl_cons]

theorem foldl_updOne_sum (q : String) (ps : List Payment) :
    ∀ t : MonthlyTotal,
      ps.foldl (updOne q) t =
        ⟨t.vnd + bucketSum ps q Currency.VND, t.usd + bucketSum ps q Currency.USD,
          t.convertedVnd⟩ := by
  induction ps with
  | nil =>
    intro t
    simp [bucketSum]
  | cons p rest ih =>
    intro t
    rw [List.foldl_cons, ih]
    unfold updOne bucketSum
    by_cases hb : getMonthBucket p.paidDate = q
    · cases hcur : p.currency <;> simp_all [List.filter_cons] <;> omega
    · simp_all [List.filter_cons]

theorem lookup_map_conv (acc : List (String × MonthlyTotal)) (q : String) :
    lookupTotal
      (acc.map (fun kv => (kv.1, { kv.2 with convertedVnd := kv.2.vnd + 258 * kv.2.usd }))) q =
      Option.map (fun t => { t with convertedVnd := t.vnd + 258 * t.usd })
        (lookupTotal acc q) := by
  induction acc with
  | nil => rfl
  | cons hd rest ih =>
    obtain ⟨ek, ev⟩ := hd
    rw [List.map_cons]
    unfold lookupTotal
    by_cases heq : ek = q <;> simp [heq, ih]

/-- Claim C10: every supplied bucket's report row carries the exact sums
of the full, un-split amounts of the payments whose paid month equals
the bucket (VND and USD separately, USD in cents), with
`convertedVnd = vnd + 258 * usdCents` (the source's
`round(vnd + usd * 25800)` evaluated on whole cents); a bucket with no
matching payments reports zeros (the empty sums); and a payment whose
paid month is not among the supplied buckets contributes to no output
row at all. -/
theorem monthlyTotals_per_bucket :
    (∀ (payments : List Payment) (buckets : List String) (b : String), b ∈ buckets →
      lookupTotal (computeMonthlyTotals payments buckets) b =
        Option.some ⟨bucketSum payments b Currency.VND, bucketSum payments b Currency.USD,
          bucketSum payments b Currency.VND + 258 * bucketSum payments b Currency.USD⟩) ∧
    (∀ (p : Payment) (payments : List Payment) (buckets : List String),
      getMonthBucket p.paidDate ∉ buckets →
      computeMonthlyTotals (p :: payments) buckets =
        computeMonthlyTotals payments buckets) := by
  constructor
  · intro ps buckets b hb
    unfold computeMonthlyTotals
    try dsimp only
    rw [lookup_map_conv, lookup_foldPayments, lookup_initTotals, if_pos hb]
    simp [foldl_updOne_sum]
  · intro p ps buckets hnb
    unfold computeMonthlyTotals
    try dsimp only
    rw [List.foldl_cons]
    have h0 : lookupTotal (buckets.foldl (fun a b => setTotal a b ⟨0, 0, 0⟩) [])
        (getMonthBucket p.paidDate) = Option.none := by
      rw [lookup_initTotals, if_neg hnb]
      rfl
    have happ : applyPayment (buckets.foldl (fun a b => setTotal a b ⟨0, 0, 0⟩) []) p =
        buckets.foldl (fun a b => setTotal a b ⟨0, 0, 0⟩) [] := by
      unfold applyPayment
      rw [h0]
    rw [happ]

theorem monthlyTotals_per_bucket_witness :
    "2026-01" ∈ ["2026-02", "2026-01"] ∧
    lookupTotal
      (computeMonthlyTotals
        [⟨⟨2026, 1, 5⟩, Currency.VND, 100000, 2, ⟨2026, 3, 5⟩⟩,
         ⟨⟨2026, 1, 20⟩, Currency.USD, 350, 1, ⟨2026, 2, 20⟩⟩]
        ["2026-02", "2026-01"]) "2026-01" =
      Option.some ⟨100000, 350, 100000 + 258 * 350⟩ := by
  refine ⟨by simp, ?_⟩
  rw [monthlyTotals_per_bucket.1 _ _ "2026-01" (by simp)]
  rfl

end KanaBox

namespace KanaBox

/-- Claim C4: `addMonthsDateOnly` preserves the day-of-month when the
target month has at least that many days and otherwise clamps to the
last day of the target month (calendar-month arithmetic, not a fixed
30-day shift), for every valid date and every integer month offset; and
the three string-level examples of the spec hold. -/
theorem addMonths_preserves_or_clamps :
    (∀ (d : CalendarDate) (n : Int), Valid d →
      addMonthsDateOnly d n =
        (if d.day ≤ daysInMonth ((12 * d.year + (d.month - 1) + n) / 12)
            ((12 * d.year + (d.month - 1) + n) % 12 + 1) then
          (⟨(12 * d.year + (d.month - 1) + n) / 12,
            (12 * d.year + (d.month - 1) + n) % 12 + 1, d.day⟩ : CalendarDate)
        else
          ⟨(12 * d.year + (d.month - 1) + n) / 12,
            (12 * d.year + (d.month - 1) + n) % 12 + 1,
            daysInMonth ((12 * d.year + (d.month - 1) + n) / 12)
              ((12 * d.year + (d.month - 1) + n) % 12 + 1)⟩)) ∧
    addMonthsDateOnlyStr "2026-01-31" 1 = Except.ok "2026-02-28" ∧
    addMonthsDateOnlyStr "2024-01-31" 1 = Except.ok "2024-02-29" ∧
    addMonthsDateOnlyStr "2026-02-05" 1 = Except.ok "2026-03-05" :=
  ⟨fun d n h => addMonthsDateOnly_eq_clamp d n h, by rfl, by rfl, by rfl⟩

theorem addMonths_preserves_or_clamps_witness :
    Valid ⟨2026, 1, 31⟩ ∧
    addMonthsDateOnly ⟨2026, 1, 31⟩ 1 = ⟨2026, 2, 28⟩ ∧
    Valid ⟨2026, 2, 5⟩ ∧
    addMonthsDateOnly ⟨2026, 2, 5⟩ 1 = ⟨2026, 3, 5⟩ := by
  refine ⟨by decide, ?_, by decide, ?_⟩
  · rw [addMonths_preserves_or_clamps.1 ⟨2026, 1, 31⟩ 1 (by decide)]
    rfl
  · rw [addMonths_preserves_or_clamps.1 ⟨2026, 2, 5⟩ 1 (by decide)]
    rfl

theorem diffDays_addDays_roundtrip_witness :
    Valid ⟨2026, 1, 10⟩ ∧
    diffDaysDateOnly (addDaysDateOnly ⟨2026, 1, 10⟩ 40) ⟨2026, 1, 10⟩ = 40 ∧
    diffDaysDateOnly (addDaysDateOnly ⟨2026, 1, 10⟩ (-15)) ⟨2026, 1, 10⟩ = -15 :=
  ⟨by decide, diffDays_addDays_roundtrip ⟨2026, 1, 10⟩ 40 (by decide),
    diffDays_addDays_roundtrip ⟨2026, 1, 10⟩ (-15) (by decide)⟩

theorem allocate_amounts_exact_witness :
    0 < (⟨⟨2025, 11, 30⟩, Currency.VND, 160000, 3, ⟨2026, 2, 28⟩⟩ : Payment).months ∧
    0 < (⟨⟨2025, 11, 30⟩, Currency.VND, 160000, 3, ⟨2026, 2, 28⟩⟩ : Payment).amount ∧
    ((allocatePaymentToMonths ⟨⟨2025, 11, 30⟩, Currency.VND, 160000, 3, ⟨2026, 2, 28⟩⟩).map
      MonthlyAllocation.amount).sum =
      (⟨⟨2025, 11, 30⟩, Currency.VND, 160000, 3, ⟨2026, 2, 28⟩⟩ : Payment).amount :=
  ⟨by decide, by decide,
    (allocate_amounts_exact ⟨⟨2025, 11, 30⟩, Currency.VND, 160000, 3, ⟨2026, 2, 28⟩⟩
      (by decide) (by decide)).2.1⟩

theorem allocate_buckets_contiguous_witness :
    Valid (⟨⟨2025, 11, 30⟩, Currency.VND, 160000, 3, ⟨2026, 2, 28⟩⟩ : Payment).paidDate ∧
    0 < (⟨⟨2025, 11, 30⟩, Currency.VND, 160000, 3, ⟨2026, 2, 28⟩⟩ : Payment).months ∧
    (allocatePaymentToMonths ⟨⟨2025, 11, 30⟩, Currency.VND, 160000, 3, ⟨2026, 2, 28⟩⟩).length =
      (⟨⟨2025, 11, 30⟩, Currency.VND, 160000, 3, ⟨2026, 2, 28⟩⟩ : Payment).months.toNat :=
  ⟨by decide, by decide,
    (allocate_buckets_contiguous ⟨⟨2025, 11, 30⟩, Currency.VND, 160000, 3, ⟨2026, 2, 28⟩⟩
      (by decide) (by decide)).1⟩

theorem parse_characterization_witness :
    matchYMD "2026-04-31" = Option.some (2026, 4, 31) ∧
    ¬(Valid ⟨((2026 : Nat) : Int), ((4 : Nat) : Int), ((31 : Nat) : Int)⟩ ∧
        100 ≤ (2026 : Nat)) ∧
    parseDateOnly "2026-04-31" = Except.error DateError.invalidDate :=
  ⟨by rfl, by decide,
    ((parse_characterization "2026-04-31").2 2026 4 31 (by rfl)).2 (by decide)⟩

end KanaBox
